import Mathlib

/-
Verification of the poasta gap-affine DAG aligner.

Embedded from the source:
  - src/aligner/mod.rs      : the PoastaAligner driver (align, extend, backtrace)
  - src/bubbles/node_map.rs : the NodeBubbleMapBuilder backward BFS and build loop

The state tree, bucket queue, path extender and affine scoring strategy live in
source files that are not part of the sampled tree (aligner/state.rs,
aligner/queue.rs, aligner/extend.rs, aligner/scoring.rs, bubbles/finder.rs);
those are modelled from the specification, as marked on each definition.

Machine integers: query offsets and indices are Nat; the usize subtraction in
the length check is modelled with an explicit wrap at 2^64 (release-mode
semantics of a 64-bit build; a debug build stops at the same input with an
overflow panic instead, so the observable outcome of the check is identical).
-/

/-- Alignment phase, from the specification's closed phase set (state.rs is
modelled): Start, Match, Mismatch, Insertion, Insertion2, Deletion, Deletion2. -/
inductive AlignState where
  | Start
  | Match
  | Mismatch
  | Insertion
  | Insertion2
  | Deletion
  | Deletion2
deriving DecidableEq, Repr, BEq

/-- Backtrace pointer of a state-tree node: a plain step to the parent state, or
a closed-indel link to the indel state this matchable state was materialised
from. Modelled from the spec (state.rs). -/
inductive Backtrace where
  | Step (ix : Nat)
  | ClosedIndel (ix : Nat)
deriving DecidableEq, Repr, BEq

/-- The parent index of a backtrace pointer, as Backtrace.prev in the source. -/
def Backtrace.prev : Backtrace → Nat
  | .Step ix => ix
  | .ClosedIndel ix => ix

/-- A node of the alignment state tree: graph node, query offset, phase, and an
optional backtrace pointer. Modelled from the spec (state.rs). -/
structure StateTreeNode where
  node : Nat
  offset : Nat
  state : AlignState
  backtrace : Option Backtrace
deriving DecidableEq, Repr, BEq

instance : Inhabited StateTreeNode := ⟨⟨0, 0, .Start, none⟩⟩

/-- The alignment state tree: an append-only arena of states addressed by dense
indices. Modelled from the spec (state.rs). -/
structure StateTree where
  nodes : List StateTreeNode
deriving DecidableEq, Repr

/-- Arena lookup; indices are in range by construction in the source, so an
out-of-range index returns the default node here. -/
def StateTree.getNode (t : StateTree) (ix : Nat) : StateTreeNode :=
  t.nodes.getD ix default

/-- Index of the live state with the given (node, offset, phase) triple, if one
exists: the visited-set keyed by that triple from the spec. -/
def StateTree.findIx (t : StateTree) (n k : Nat) (s : AlignState) : Option Nat :=
  t.nodes.findIdx? fun st => st.node == n && st.offset == k && st.state == s

/-- Insert a state, returning the existing index when the (node, offset, phase)
triple is already present: add_node from the spec (duplicates dropped at
insert). -/
def StateTree.addNode (t : StateTree) (st : StateTreeNode) : Nat × StateTree :=
  match t.findIx st.node st.offset st.state with
  | some i => (i, t)
  | none => (t.nodes.length, ⟨t.nodes ++ [st]⟩)

/-- Close indels for a batch of states: for every indel state in the batch,
materialise the matchable companion state at the same (node, offset) with phase
Match and a ClosedIndel backtrace, iff no Match state at that position exists
yet; return the new indices together with the grown tree. Modelled from the
spec (close_indels_for). -/
def StateTree.closeIndels : StateTree → List Nat → List Nat × StateTree
  | t, [] => ([], t)
  | t, ix :: rest =>
    let st := t.getNode ix
    match st.state with
    | .Insertion | .Insertion2 | .Deletion | .Deletion2 =>
      match t.findIx st.node st.offset .Match with
      | some _ => StateTree.closeIndels t rest
      | none =>
        let newIx := t.nodes.length
        let t' : StateTree := ⟨t.nodes ++ [⟨st.node, st.offset, .Match, some (.ClosedIndel ix)⟩]⟩
        let R := StateTree.closeIndels t' rest
        (newIx :: R.1, R.2)
    | _ => StateTree.closeIndels t rest

/-- An aligned pair of the produced alignment: an optional reference (graph
node) position and an optional query position, as in aligner/alignment.rs. -/
structure AlignedPair where
  rpos : Option Nat
  qpos : Option Nat
deriving DecidableEq, Repr

/-- Error outcomes of an align call. The source panics at the corresponding
program points; the spec names them OffsetTypeTooNarrow, QueueDrained and
BadBacktrace. outOfFuel is a modelling artifact marking exhaustion of the
step budget of the embedded loops, never reached with a sufficient budget. -/
inductive AlignError where
  | offsetTooNarrow
  | queueDrained
  | badBacktrace
  | outOfFuel
deriving DecidableEq, Repr

/-- Gap-affine cost parameters: mismatch x, gap-open o, gap-extend e. -/
structure Costs where
  x : Nat
  o : Nat
  e : Nat
deriving DecidableEq, Repr

/-- The alignable graph interface consumed by the aligner: start nodes, end
test, successor lists and per-node symbols (none on the virtual start). -/
structure AlnGraph where
  startNodes : List Nat
  successors : Nat → List Nat
  symbol : Nat → Option Nat
  isEnd : Nat → Bool
  nodeCount : Nat

/-- The four offset types the engine supports (u8, u16, u32, u64). -/
inductive OffsetTy where
  | u8
  | u16
  | u32
  | u64
deriving DecidableEq, Repr

/-- Maximum value of an offset type, as O::max_value().as_usize(). -/
def OffsetTy.maxValue : OffsetTy → Nat
  | .u8 => 2 ^ 8 - 1
  | .u16 => 2 ^ 16 - 1
  | .u32 => 2 ^ 32 - 1
  | .u64 => 2 ^ 64 - 1

/-- The usize computation seq.len() - 1 of the length check, wrapping at 2^64. -/
def usizeSub1 (len : Nat) : Nat :=
  (len + (2 ^ 64 - 1)) % 2 ^ 64

/-- Add an index to the score bucket at the given position relative to the
front of the (already popped) queue, growing the deque as needed. Modelled
from the spec (queue.rs). -/
def enqueueAt (q : List (List Nat)) (i : Nat) (ix : Nat) : List (List Nat) :=
  let q' := if q.length ≤ i then q ++ List.replicate (i + 1 - q.length) [] else q
  q'.set i (q'.getD i [] ++ [ix])

/-- Insert a successor state and enqueue it at delta - 1 relative to the
post-pop front (the popped bucket held score s, so the residual front bucket is
score s + 1 and a transition of cost delta lands at index delta - 1); a state
whose (node, offset, phase) triple already exists is dropped at insert and not
enqueued. Modelled from the spec (scoring.rs and queue.rs). -/
def addState (t : StateTree) (q : List (List Nat)) (st : StateTreeNode) (delta : Nat) :
    StateTree × List (List Nat) :=
  match t.findIx st.node st.offset st.state with
  | some _ => (t, q)
  | none => (⟨t.nodes ++ [st]⟩, enqueueAt q (delta - 1) t.nodes.length)

/-- Thread addState over a batch of (state, cost) successor candidates. -/
def addStates : StateTree → List (List Nat) → List (StateTreeNode × Nat) →
    StateTree × List (List Nat)
  | t, q, [] => (t, q)
  | t, q, (st, d) :: rest =>
    let R := addState t q st d
    addStates R.1 R.2 rest

/-- Modelled from the spec: scoring.rs's generate_next for the gap-affine
scheme. From a Start/Match/Mismatch state at (n, k) it enqueues a Mismatch at
(s, k+1) with cost x for every successor s whose symbol differs from the next
query character, an Insertion at (n, k+1) with cost o + e, and a Deletion at
(s, k) with cost o + e for every successor; an Insertion extends to (n, k+1)
with cost e and a Deletion to (s, k) with cost e. The spec's transition table
keys mismatches on the successor symbol, so the model receives the sequence
itself where the driver passes only its length. The two-piece phases are
produced only by the two-piece strategy and generate nothing here. -/
def generateNext (c : Costs) (g : AlnGraph) (seq : List Nat) (t : StateTree)
    (q : List (List Nat)) (ix : Nat) : StateTree × List (List Nat) :=
  let st := t.getNode ix
  let n := st.node
  let k := st.offset
  match st.state with
  | .Start | .Match | .Mismatch =>
    let succs := g.successors n
    let mism : List (StateTreeNode × Nat) :=
      if k < seq.length then
        (succs.filter fun s => !(g.symbol s == some (seq.getD k 0))).map
          fun s => (⟨s, k + 1, .Mismatch, some (.Step ix)⟩, c.x)
      else []
    let ins : List (StateTreeNode × Nat) :=
      if k < seq.length then [(⟨n, k + 1, .Insertion, some (.Step ix)⟩, c.o + c.e)] else []
    let del : List (StateTreeNode × Nat) :=
      succs.map fun s => (⟨s, k, .Deletion, some (.Step ix)⟩, c.o + c.e)
    addStates t q (mism ++ ins ++ del)
  | .Insertion =>
    addStates t q
      (if k < seq.length then [(⟨n, k + 1, .Insertion, some (.Step ix)⟩, c.e)] else [])
  | .Deletion =>
    addStates t q ((g.successors n).map fun s => (⟨s, k, .Deletion, some (.Step ix)⟩, c.e))
  | .Insertion2 | .Deletion2 => (t, q)

/-- Thread generate_next over every member of the current batch, as the
expansion loop of align does. -/
def genAll (c : Costs) (g : AlnGraph) (seq : List Nat) :
    List Nat → StateTree → List (List Nat) → StateTree × List (List Nat)
  | [], t, q => (t, q)
  | ix :: rest, t, q =>
    let R := generateNext c g seq t q ix
    genAll c g seq rest R.1 R.2

/-- Modelled from the spec: extend.rs's PathExtender. Starting from the state
at parentIx with offset k, walk every successor whose symbol equals the next
query character, creating a Match child at (s, k+1) with a Step backtrace
unless that (node, offset, Match) triple already exists, and recurse from each
child; the newly created match indices are emitted in depth-first preorder.
The fuel bounds the walk; it is a budget on created states only. -/
def peGo (g : AlnGraph) (seq : List Nat) :
    Nat → StateTree → Nat → Nat → List Nat → List Nat × StateTree
  | 0, t, _, _, _ => ([], t)
  | _ + 1, t, _, _, [] => ([], t)
  | fuel + 1, t, parentIx, k, s :: rest =>
    if k < seq.length && g.symbol s == some (seq.getD k 0)
        && (t.findIx s (k + 1) AlignState.Match).isNone then
      let newIx := t.nodes.length
      let t1 : StateTree := ⟨t.nodes ++ [⟨s, k + 1, .Match, some (.Step parentIx)⟩]⟩
      let sub := peGo g seq fuel t1 newIx (k + 1) (g.successors s)
      let more := peGo g seq fuel sub.2 parentIx k rest
      (newIx :: (sub.1 ++ more.1), more.2)
    else
      peGo g seq fuel t parentIx k rest

/-- The path extender driven from one tree node, with a fuel large enough for
any acyclic walk. -/
def pathExtender (g : AlnGraph) (seq : List Nat) (t : StateTree) (ix : Nat) :
    List Nat × StateTree :=
  let st := t.getNode ix
  peGo g seq ((seq.length + 1) * (g.nodeCount + 1) + 1) t ix st.offset (g.successors st.node)

/-- Result of the extension step, as enum ExtendResult in aligner/mod.rs. -/
inductive ExtendResult where
  | NewExtendedNodes (additional : List Nat)
  | ReachedEnd (ix : Nat)
deriving DecidableEq, Repr

/-- Phases treated as matchable by extend's dispatch: Start, Match, Mismatch
(the remaining four indel phases are left untouched), as the match arms of the
extension loop in aligner/mod.rs. -/
def matchable : AlignState → Bool
  | .Start | .Match | .Mismatch => true
  | _ => false

/-- The terminal test of aligner/mod.rs: a Start/Match/Mismatch state whose
offset equals the query length and whose graph node is an end node. -/
def isTerminal (g : AlnGraph) (qlen : Nat) (t : StateTree) (ix : Nat) : Bool :=
  let st := t.getNode ix
  match st.state with
  | .Start | .Match | .Mismatch => st.offset == qlen && g.isEnd st.node
  | _ => false

/-- First member of a batch satisfying the terminal test, as the find calls in
extend. -/
def findTerminal (g : AlnGraph) (qlen : Nat) (t : StateTree) (ixs : List Nat) : Option Nat :=
  ixs.find? (isTerminal g qlen t)

/-- The extension loop of extend in aligner/mod.rs: each Start/Match/Mismatch
member is handed to the path extender; the first yielded index overwrites the
member's bucket slot and the remaining yields are collected as additional
states; indel members are left unchanged. Returns the grown tree, the updated
bucket and the additional states. -/
def extendPass (g : AlnGraph) (seq : List Nat) :
    StateTree → List Nat → StateTree × List Nat × List Nat
  | t, [] => (t, [], [])
  | t, ix :: rest =>
    if matchable (t.getNode ix).state then
      let PE := pathExtender g seq t ix
      let R := extendPass g seq PE.2 rest
      match PE.1 with
      | [] => (R.1, ix :: R.2.1, R.2.2)
      | x :: xs => (R.1, x :: R.2.1, xs ++ R.2.2)
    else
      let R := extendPass g seq t rest
      (R.1, ix :: R.2.1, R.2.2)

/-- extend from aligner/mod.rs: test the batch for a terminal state, extend
along matching symbols, then test the updated batch chained with the
additional states again; the first hit is returned as ReachedEnd. -/
def extendFn (g : AlnGraph) (seq : List Nat) (t : StateTree) (cur : List Nat) :
    StateTree × List Nat × ExtendResult :=
  match findTerminal g seq.length t cur with
  | some e => (t, cur, .ReachedEnd e)
  | none =>
    let P := extendPass g seq t cur
    match findTerminal g seq.length P.1 (P.2.1 ++ P.2.2) with
    | some e => (P.1, P.2.1, .ReachedEnd e)
    | none => (P.1, P.2.1, .NewExtendedNodes P.2.2)

/-- The main loop of align in aligner/mod.rs: pop the front bucket (an
exhausted queue is the QueueDrained panic), roll an empty bucket over by
incrementing the score, otherwise close indels, extend, stop at a terminal
state with the current score, or expand every member and increment the
score. -/
def alignLoop (c : Costs) (g : AlnGraph) (seq : List Nat) :
    Nat → List (List Nat) → Nat → StateTree → Except AlignError (Nat × Nat × StateTree)
  | 0, _, _, _ => .error .outOfFuel
  | _ + 1, [], _, _ => .error .queueDrained
  | fuel + 1, [] :: rest, score, t => alignLoop c g seq fuel rest (score + 1) t
  | fuel + 1, (b :: bs) :: rest, score, t =>
    let CI := t.closeIndels (b :: bs)
    let cur := (b :: bs) ++ CI.1
    let R := extendFn g seq CI.2 cur
    match R.2.2 with
    | .ReachedEnd e => .ok (score, e, R.1)
    | .NewExtendedNodes adds =>
      let GA := genAll c g seq (R.2.1 ++ adds) R.1 rest
      alignLoop c g seq fuel GA.2 (score + 1) GA.1

/-- Seed one Start state per graph start node into bucket 0, as the seeding
loop of align. -/
def seedGo : List Nat → StateTree → List (List Nat) → StateTree × List (List Nat)
  | [], t, q => (t, q)
  | s :: rest, t, q =>
    let R := StateTree.addNode t ⟨s, 0, .Start, none⟩
    seedGo rest R.2 (enqueueAt q 0 R.1)

/-- Initial tree and queue of an align call. -/
def seedStarts (g : AlnGraph) : StateTree × List (List Nat) :=
  seedGo g.startNodes ⟨[]⟩ []

/-- The backtrace walk of aligner/mod.rs: follow parent pointers from the
current state, pushing one aligned pair per Match/Mismatch step, nothing for a
closed indel, a query-only pair per Insertion and a node-only pair per
Deletion; a Start, Insertion2 or Deletion2 phase holding a backtrace is the
BadBacktrace panic; the walk ends on a state without backtrace or a Start
parent, and the accumulated list is reversed by the caller. -/
def backtraceGo (t : StateTree) :
    Nat → Option Nat → List AlignedPair → Except AlignError (List AlignedPair)
  | _, none, acc => .ok acc
  | 0, some _, _ => .error .outOfFuel
  | fuel + 1, some n, acc =>
    let st := t.getNode n
    match st.backtrace with
    | none => .ok acc
    | some bt =>
      let next : Option Nat := if (t.getNode bt.prev).state == .Start then none else some bt.prev
      match st.state with
      | .Match | .Mismatch =>
        match bt with
        | .Step _ =>
          backtraceGo t fuel next (acc ++ [⟨some st.node, some (st.offset - 1)⟩])
        | .ClosedIndel _ => backtraceGo t fuel next acc
      | .Insertion => backtraceGo t fuel next (acc ++ [⟨none, some (st.offset - 1)⟩])
      | .Deletion => backtraceGo t fuel next (acc ++ [⟨some st.node, none⟩])
      | .Start | .Insertion2 | .Deletion2 => .error .badBacktrace

/-- Backtrace from the terminal state: run the walk with a fuel covering any
acyclic parent chain and reverse the reverse-built list into forward order. -/
def backtraceF (t : StateTree) (ix : Nat) : Except AlignError (List AlignedPair) :=
  (backtraceGo t (t.nodes.length + 1) (some ix) []).map List.reverse

/-- The body of align after the offset-width check has passed: seed the start
states, run the score loop, and backtrace from the reached end state. -/
def alignChecked (c : Costs) (g : AlnGraph) (seq : List Nat) (fuel : Nat) :
    Except AlignError (Nat × List AlignedPair) :=
  let S := seedStarts g
  match alignLoop c g seq fuel S.2 0 S.1 with
  | .error e => .error e
  | .ok (score, endIx, t) => (backtraceF t endIx).map fun al => (score, al)

/-- align from aligner/mod.rs: assert that seq.len() - 1 (a usize subtraction)
is below the offset type's maximum before any state is allocated, then run the
checked alignment. -/
def align (o : OffsetTy) (c : Costs) (g : AlnGraph) (seq : List Nat) (fuel : Nat) :
    Except AlignError (Nat × List AlignedPair) :=
  if usizeSub1 seq.length < o.maxValue then alignChecked c g seq fuel
  else .error .offsetTooNarrow

/-- Previous operation of the reference gap-affine recursion, selecting gap
open versus gap extend. -/
inductive GapPrev where
  | M
  | I
  | D
deriving DecidableEq, Repr

/-- Reference gap-affine alignment cost between a path label r and a query q,
by the standard three-state recursion: a substitution costs 0 or x, a gap of
length l costs o + l * e, opening from any other state and extending within
the same gap state. -/
def afc (c : Costs) : Nat → GapPrev → List Nat → List Nat → Nat
  | 0, _, _, _ => 1000000
  | _ + 1, _, [], [] => 0
  | fuel + 1, p, _ :: r, [] =>
    (if p = .D then c.e else c.o + c.e) + afc c fuel .D r []
  | fuel + 1, p, [], _ :: q =>
    (if p = .I then c.e else c.o + c.e) + afc c fuel .I [] q
  | fuel + 1, p, a :: r, b :: q =>
    let sub := (if a == b then 0 else c.x) + afc c fuel .M r q
    let del := (if p = .D then c.e else c.o + c.e) + afc c fuel .D r (b :: q)
    let ins := (if p = .I then c.e else c.o + c.e) + afc c fuel .I (a :: r) q
    min sub (min del ins)

/-- Reference gap-affine cost of aligning reference r against query q. -/
def affineCost (c : Costs) (r q : List Nat) : Nat :=
  afc c (r.length + q.length + 1) .M r q

/-- Labels of all directed paths from node n (inclusive) to an end node. -/
def pathLabelsFrom (g : AlnGraph) : Nat → Nat → List (List Nat)
  | 0, _ => []
  | fuel + 1, n =>
    let sym := (g.symbol n).getD 0
    (if g.isEnd n then [[sym]] else []) ++
      (g.successors n).flatMap fun s => (pathLabelsFrom g fuel s).map fun l => sym :: l

/-- Labels of all paths of the graph: from each successor of a start node
(the virtual start carries no symbol) to an end node. -/
def allPathLabels (g : AlnGraph) : List (List Nat) :=
  g.startNodes.flatMap fun st =>
    (g.successors st).flatMap fun s => pathLabelsFrom g (g.nodeCount + 1) s

/-- Minimum over all paths of the reference gap-affine cost against q. -/
def minPathCost (c : Costs) (g : AlnGraph) (q : List Nat) : Nat :=
  ((allPathLabels g).map fun r => affineCost c r q).foldr min 1000000

/-- Example costs: mismatch 4, gap open 4, gap extend 2 (the spec's S2 - S4
parameters). -/
def exCosts : Costs := ⟨4, 4, 2⟩

/-- Example graph: a virtual start node 0 with two branches, node 1 with
symbol T (an end node, no successors) and nodes 2 - 3 labelled G, G with node 3
an end node. -/
def exGraph : AlnGraph where
  startNodes := [0]
  successors := fun n => match n with | 0 => [1, 2] | 2 => [3] | _ => []
  symbol := fun n => match n with | 1 => some 84 | 2 => some 71 | 3 => some 71 | _ => none
  isEnd := fun n => n == 1 || n == 3
  nodeCount := 4


/-- One recorded bubble entry for a node: the bubble's exit and the distance to
that exit, as struct NodeBubbleMap in bubbles/node_map.rs. -/
structure NodeBubbleMap where
  bubbleExit : Nat
  distToExit : Nat
deriving DecidableEq, Repr

/-- Inputs of the node-to-bubble map builder. The superbubble finder lives in
bubbles/finder.rs, which is outside the sampled tree, so its products are
modelled from the spec as given data: a reverse postorder and its inverse, and
the entrance and exit arrays indexed by reverse postorder that new() fills
from the finder's (entrance, exit) pairs, each carrying the partner node. -/
structure BubGraph where
  nodeCount : Nat
  predecessors : Nat → List Nat
  revPostorder : Nat → Nat
  invRevPostorder : Nat → Nat
  entranceArr : Nat → Option Nat
  exitArr : Nat → Option Nat

/-- A BFS queue item of bubble_backward_bfs: the node, its distance from the
BFS origin, and the stack of active bubbles as (distance at exit, exit) pairs
(pushed and popped at the back, iterated front to back, as a Vec). -/
structure QItem where
  node : Nat
  dist : Nat
  stack : List (Nat × Nat)
deriving DecidableEq, Repr

/-- Mutable state of the builder: the per-node bubble map, the visited set
(shared across all BFS runs), the BFS queue of the active run, and a ghost
trace recording every node ever enqueued, in order. -/
structure BState where
  nbm : List (List NodeBubbleMap)
  visited : List Nat
  qu : List QItem
  trace : List Nat
deriving DecidableEq, Repr

/-- Append one entry to the bubble list of the node at the given index. -/
def pushEntry (nbm : List (List NodeBubbleMap)) (i : Nat) (e : NodeBubbleMap) :
    List (List NodeBubbleMap) :=
  nbm.set i (nbm.getD i [] ++ [e])

/-- Record, for the dequeued node, one entry per active bubble on the stack:
exit and BFS depth minus the depth at which that bubble was entered, as the
stack iteration at the head of the BFS loop. -/
def recordStack (nbm : List (List NodeBubbleMap)) (node dist : Nat) :
    List (Nat × Nat) → List (List NodeBubbleMap)
  | [] => nbm
  | (bd, be) :: rest => recordStack (pushEntry nbm node ⟨be, dist - bd⟩) node dist rest

/-- The predecessor loop of bubble_backward_bfs: each unvisited predecessor is
marked visited and enqueued with distance + 1 and a copy of the stack, popped
once (recording the popped bubble's entry for the predecessor) if the
predecessor is a bubble entrance, and pushed with the predecessor if it is a
bubble exit. The source unwraps the pop; an empty stack there is its panic,
modelled as recording nothing (the theorems below do not depend on that
branch). -/
def procPreds (g : BubGraph) (dist : Nat) (stack : List (Nat × Nat)) :
    List Nat → BState → BState
  | [], st => st
  | pred :: ps, st =>
    if pred ∈ st.visited then procPreds g dist stack ps st
    else
      let predRpo := g.revPostorder pred
      let newDist := dist + 1
      let afterPop : List (Nat × Nat) × List (List NodeBubbleMap) :=
        match g.entranceArr predRpo with
        | some _ =>
          match stack.getLast? with
          | some (bd, be) => (stack.dropLast, pushEntry st.nbm pred ⟨be, newDist - bd⟩)
          | none => (stack, st.nbm)
        | none => (stack, st.nbm)
      let newStack :=
        if (g.exitArr predRpo).isSome then afterPop.1 ++ [(newDist, pred)] else afterPop.1
      let st' : BState :=
        { nbm := afterPop.2
          visited := pred :: st.visited
          qu := st.qu ++ [⟨pred, newDist, newStack⟩]
          trace := st.trace ++ [pred] }
      procPreds g dist stack ps st'

/-- Process one dequeued BFS item: record the stack entries for the node, then
stop if the node is the run's entrance and not itself a bubble exit, else walk
its predecessors. -/
def processItem (g : BubGraph) (entrance : Nat) (it : QItem) (st : BState) : BState :=
  let rpo := g.revPostorder it.node
  let st1 : BState := { st with nbm := recordStack st.nbm it.node it.dist it.stack }
  if it.node == entrance && (g.exitArr rpo).isNone then st1
  else procPreds g it.dist it.stack (g.predecessors it.node) st1

/-- The BFS loop of bubble_backward_bfs: dequeue from the front until the
queue empties (fuel bounds the number of dequeues). -/
def bfsRun (g : BubGraph) (entrance : Nat) : Nat → BState → BState
  | 0, st => st
  | fuel + 1, st =>
    match st.qu with
    | [] => st
    | it :: qrest => bfsRun g entrance fuel (processItem g entrance it { st with qu := qrest })

/-- bubble_backward_bfs: seed the queue with the exit at distance 0 carrying a
one-element bubble stack, mark the exit visited, and run the BFS. -/
def bubbleBackwardBfs (g : BubGraph) (fuel : Nat) (entrance bexit : Nat) (st : BState) :
    BState :=
  bfsRun g entrance fuel
    { st with
      qu := [⟨bexit, 0, [(0, bexit)]⟩]
      visited := bexit :: st.visited
      trace := st.trace ++ [bexit] }

/-- The build loop of NodeBubbleMapBuilder::build: scan reverse-postorder
ranks from high to low; skip nodes already visited by an earlier BFS run; for
an unvisited bubble exit, run the backward BFS from it toward its entrance. -/
def buildGo (g : BubGraph) (fuel : Nat) : List Nat → BState → BState
  | [], st => st
  | rpo :: rest, st =>
    let nodeId := g.invRevPostorder rpo
    if nodeId ∈ st.visited then buildGo g fuel rest st
    else
      match g.exitArr rpo with
      | some entrance => buildGo g fuel rest (bubbleBackwardBfs g fuel entrance nodeId st)
      | none => buildGo g fuel rest st

/-- NodeBubbleMapBuilder::build: process all reverse-postorder ranks from
high to low starting from an empty visited set and an empty map. -/
def buildAll (g : BubGraph) (fuel : Nat) : BState :=
  buildGo g fuel (List.range g.nodeCount).reverse
    ⟨List.replicate g.nodeCount [], [], [], []⟩

def exBub : BubGraph where
  nodeCount := 4
  predecessors := fun n => match n with | 1 => [0] | 2 => [0] | 3 => [1, 2] | _ => []
  revPostorder := fun n => n
  invRevPostorder := fun n => n
  entranceArr := fun r => if r == 0 then some 3 else none
  exitArr := fun r => if r == 3 then some 0 else none


/-- The pair the backtrace builder emits for one walked state, keyed on its
phase and backtrace kind: a (node, offset-1) pair for a stepped
Match/Mismatch, nothing for a closed indel, a query-only pair for an
Insertion, a node-only pair for a Deletion, nothing otherwise. -/
def emitOf (st : StateTreeNode) : Option AlignedPair :=
  match st.state, st.backtrace with
  | .Match, some (.Step _) => some ⟨some st.node, some (st.offset - 1)⟩
  | .Mismatch, some (.Step _) => some ⟨some st.node, some (st.offset - 1)⟩
  | .Match, some (.ClosedIndel _) => none
  | .Mismatch, some (.ClosedIndel _) => none
  | .Insertion, some _ => some ⟨none, some (st.offset - 1)⟩
  | .Deletion, some _ => some ⟨some st.node, none⟩
  | _, _ => none

/-- The chain of states visited by the backtrace walk from an index: follow
parent pointers, stopping at a state without backtrace or whose parent is a
Start state. -/
def btChain (t : StateTree) : Nat → Nat → List StateTreeNode
  | 0, _ => []
  | fuel + 1, ix =>
    let st := t.getNode ix
    match st.backtrace with
    | none => []
    | some bt =>
      st :: (if (t.getNode bt.prev).state == .Start then [] else btChain t fuel bt.prev)

/-- The parent walk from an index terminates within the fuel: it reaches a
state without backtrace or a Start parent. -/
def chainClosed (t : StateTree) : Nat → Nat → Bool
  | 0, _ => false
  | fuel + 1, ix =>
    match (t.getNode ix).backtrace with
    | none => true
    | some bt => (t.getNode bt.prev).state == .Start || chainClosed t fuel bt.prev

/-- Phases the backtrace builder accepts on a state holding a backtrace. -/
def goodPhase : AlignState → Bool
  | .Match | .Mismatch | .Insertion | .Deletion => true
  | _ => false

/-- Whether an align-loop outcome is a success. -/
def isOkE : Except AlignError (Nat × Nat × StateTree) → Bool
  | .ok _ => true
  | .error _ => false

/-- The score of a successful align-loop outcome (zero on error). -/
def scoreOf : Except AlignError (Nat × Nat × StateTree) → Nat
  | .ok r => r.1
  | .error _ => 0

/-- The enqueue discipline of the bubble-map builder: the trace of enqueued
nodes has no duplicates and every enqueued node is in the visited set. -/
def enqOk (st : BState) : Prop :=
  st.trace.Nodup ∧ ∀ n ∈ st.trace, n ∈ st.visited

set_option maxRecDepth 40000

/-- C1: the claim that align's returned score equals the minimum over all
graph paths of the gap-affine edit cost fails. On a graph whose virtual start
forks into a T-labelled dead-end end node and a G,G branch, with query TG and
costs x = 4, o = 4, e = 2, align returns score 6 (match T on the first branch,
then an opened insertion), while the minimum over paths is 4 (mismatch T
against G, then match G on the second branch): the start state is replaced in
its bucket slot by its greedy match extension, so generate_next is never
invoked on it and the mismatch into the sibling successor is never created. -/
theorem c1_optimality_divergence :
    align OffsetTy.u32 exCosts exGraph [84, 71] 40 =
      .ok (6, [⟨some 1, some 0⟩, ⟨none, some 1⟩]) ∧
    minPathCost exCosts exGraph [84, 71] = 4 := by
  exact ⟨rfl, rfl⟩

/-- C5: the offset-width check. When the usize value of seq.len() - 1 reaches
the offset type's maximum, align returns the offset-too-narrow failure; the
check sits before the tree and queue are created, so no alignment state has
been allocated. When the value is below the maximum, align proceeds into the
checked alignment (seeding, main loop, backtrace). -/
theorem c5_offset_check (o : OffsetTy) (c : Costs) (g : AlnGraph) (seq : List Nat) (fuel : Nat) :
    (o.maxValue ≤ usizeSub1 seq.length →
      align o c g seq fuel = .error .offsetTooNarrow) ∧
    (usizeSub1 seq.length < o.maxValue →
      align o c g seq fuel = alignChecked c g seq fuel) := by
  constructor
  · intro h
    unfold align
    rw [if_neg (by omega)]
  · intro h
    unfold align
    rw [if_pos h]

/-- Witness for C5 at concrete inputs: a query of length 300 overflows u8 and
fails, and the TG query fits u32 and proceeds into the checked alignment. -/
theorem c5_offset_check_witness :
    align OffsetTy.u8 exCosts exGraph (List.replicate 300 0) 5 = .error .offsetTooNarrow ∧
    align OffsetTy.u32 exCosts exGraph [84, 71] 40 = alignChecked exCosts exGraph [84, 71] 40 :=
  ⟨(c5_offset_check OffsetTy.u8 exCosts exGraph (List.replicate 300 0) 5).1 (by decide),
   (c5_offset_check OffsetTy.u32 exCosts exGraph [84, 71] 40).2 (by decide)⟩

/-- C6: an exhausted queue (pop_current yields no bucket) aborts the align
loop fatally with the queue-drained failure, while an empty front bucket only
increments the score by one and continues with the rest of the queue. -/
theorem c6_queue_drained_vs_empty_bucket (c : Costs) (g : AlnGraph) (seq : List Nat)
    (fuel score : Nat) (t : StateTree) (rest : List (List Nat)) :
    alignLoop c g seq (fuel + 1) [] score t = .error .queueDrained ∧
    alignLoop c g seq (fuel + 1) ([] :: rest) score t =
      alignLoop c g seq fuel rest (score + 1) t := by
  exact ⟨rfl, rfl⟩

/-- C7: when the backtrace walk meets a state holding a backtrace whose phase
is Start, Insertion2 or Deletion2 (a step was expected there), the builder
fails with the bad-backtrace error and emits no pair. -/
theorem c7_bad_backtrace_phase (t : StateTree) (fuel ix : Nat) (acc : List AlignedPair)
    (bt : Backtrace) (hbt : (t.getNode ix).backtrace = some bt)
    (hbad : goodPhase (t.getNode ix).state = false) :
    backtraceGo t (fuel + 1) (some ix) acc = .error .badBacktrace := by
  simp only [backtraceGo, hbt]
  cases hst : (t.getNode ix).state <;> simp_all [goodPhase]

/-- Witness for C7: a tree whose index 1 is an Insertion2 state with a step
backtrace makes the walk fail. -/
theorem c7_bad_backtrace_phase_witness :
    backtraceGo ⟨[⟨0, 0, .Start, none⟩, ⟨1, 1, .Insertion2, some (.Step 0)⟩]⟩ 3 (some 1) [] =
      .error .badBacktrace :=
  c7_bad_backtrace_phase _ 2 1 [] (.Step 0) rfl rfl

/-- C9: for the empty query, seq.len() - 1 underflows the usize subtraction to
2^64 - 1, which is at least the maximum of every offset type, so align fails
the length check (reporting the sequence as too long) for every offset type,
although an empty query would fit any offset range. -/
theorem c9_empty_query_always_fails (o : OffsetTy) (c : Costs) (g : AlnGraph) (fuel : Nat) :
    align o c g [] fuel = .error .offsetTooNarrow := by
  cases o <;> rfl

/-- The score counter of the align loop never decreases: a successful outcome
carries a score at least the score at entry. -/
theorem alignLoop_score_mono (c : Costs) (g : AlnGraph) (seq : List Nat) :
    ∀ (fuel : Nat) (q : List (List Nat)) (score : Nat) (t : StateTree),
    isOkE (alignLoop c g seq fuel q score t) = true →
    score ≤ scoreOf (alignLoop c g seq fuel q score t) := by
  intro fuel
  induction fuel with
  | zero =>
    intro q score t h
    simp [alignLoop, isOkE] at h
  | succ n ih =>
    intro q score t h
    match q with
    | [] => simp [alignLoop, isOkE] at h
    | [] :: rest =>
      have h' : isOkE (alignLoop c g seq n rest (score + 1) t) = true := h
      exact Nat.le_trans (Nat.le_succ score) (ih rest (score + 1) t h')
    | (b :: bs) :: rest =>
      simp only [alignLoop] at h ⊢
      cases hE : (extendFn g seq (t.closeIndels (b :: bs)).2
          ((b :: bs) ++ (t.closeIndels (b :: bs)).1)).2.2 with
      | ReachedEnd e => simp [scoreOf]
      | NewExtendedNodes adds =>
        rw [hE] at h
        exact Nat.le_trans (Nat.le_succ score) (ih _ _ _ h)

/-- C2: the terminal test is applied to the current batch before extension,
returning the first hit (conjunct 1), and again after extension over the
updated batch chained with the additional states (conjunct 2); when the
extension step reports a terminal state, the loop returns exactly the score
counter's value at the pop of that bucket (conjunct 3); and the score counter
never decreases during the run (conjunct 4). -/
theorem c2_terminal_tests_and_score :
    (∀ (g : AlnGraph) (seq : List Nat) (t : StateTree) (cur : List Nat) (e : Nat),
      findTerminal g seq.length t cur = some e →
      extendFn g seq t cur = (t, cur, ExtendResult.ReachedEnd e)) ∧
    (∀ (g : AlnGraph) (seq : List Nat) (t : StateTree) (cur : List Nat) (e : Nat),
      findTerminal g seq.length t cur = none →
      findTerminal g seq.length (extendPass g seq t cur).1
        ((extendPass g seq t cur).2.1 ++ (extendPass g seq t cur).2.2) = some e →
      extendFn g seq t cur =
        ((extendPass g seq t cur).1, (extendPass g seq t cur).2.1,
          ExtendResult.ReachedEnd e)) ∧
    (∀ (c : Costs) (g : AlnGraph) (seq : List Nat) (fuel b : Nat) (bs : List Nat)
      (rest : List (List Nat)) (score : Nat) (t t1 t2 : StateTree) (ns cur2 : List Nat)
      (e : Nat),
      t.closeIndels (b :: bs) = (ns, t1) →
      extendFn g seq t1 ((b :: bs) ++ ns) = (t2, cur2, ExtendResult.ReachedEnd e) →
      alignLoop c g seq (fuel + 1) ((b :: bs) :: rest) score t = .ok (score, e, t2)) ∧
    (∀ (c : Costs) (g : AlnGraph) (seq : List Nat) (fuel : Nat) (q : List (List Nat))
      (score : Nat) (t : StateTree),
      isOkE (alignLoop c g seq fuel q score t) = true →
      score ≤ scoreOf (alignLoop c g seq fuel q score t)) := by
  refine ⟨?_, ?_, ?_, ?_⟩
  · intro g seq t cur e h
    unfold extendFn
    rw [h]
  · intro g seq t cur e hpre hpost
    simp only [extendFn, hpre]
    rw [hpost]
  · intro c g seq fuel b bs rest score t t1 t2 ns cur2 e hCI hEx
    simp only [List.cons_append] at hEx
    simp only [alignLoop, hCI, List.cons_append]
    rw [hEx]
  · exact fun c g seq fuel q score t h => alignLoop_score_mono c g seq fuel q score t h

/-- A one-node tree holding a terminal Match state of the example graph. -/
def wTerm : StateTree := ⟨[⟨1, 2, .Match, some (.Step 0)⟩]⟩

/-- A one-node tree holding the Start seed of the example graph. -/
def wStart : StateTree := ⟨[⟨0, 0, .Start, none⟩]⟩

/-- Witness for C2 at concrete inputs: a pre-extension terminal hit, a
post-extension terminal hit, the loop returning the pop score, and score
monotonicity of a concrete run. -/
theorem c2_terminal_tests_and_score_witness :
    extendFn exGraph [84, 71] wTerm [0] = (wTerm, [0], ExtendResult.ReachedEnd 0) ∧
    extendFn exGraph [84] wStart [0] =
      ((extendPass exGraph [84] wStart [0]).1, (extendPass exGraph [84] wStart [0]).2.1,
        ExtendResult.ReachedEnd 1) ∧
    alignLoop exCosts exGraph [84, 71] 1 [[0]] 5 wTerm = .ok (5, 0, wTerm) ∧
    5 ≤ scoreOf (alignLoop exCosts exGraph [84, 71] 1 [[0]] 5 wTerm) :=
  ⟨c2_terminal_tests_and_score.1 exGraph [84, 71] wTerm [0] 0 (by decide),
   c2_terminal_tests_and_score.2.1 exGraph [84] wStart [0] 1 (by decide) (by decide),
   c2_terminal_tests_and_score.2.2.1 exCosts exGraph [84, 71] 0 0 [] [] 5 wTerm wTerm wTerm
     [] [0] 0 (by decide) (by decide),
   c2_terminal_tests_and_score.2.2.2 exCosts exGraph [84, 71] 1 [[0]] 5 wTerm (by decide)⟩

/-- The extension loop processes bucket members independently from left to
right, threading the tree: the result on an appended list decomposes into the
result on the prefix followed by the result on the suffix over the grown
tree, with slots and additional states concatenated in order. -/
theorem extendPass_append (g : AlnGraph) (seq : List Nat) :
    ∀ (pre rest : List Nat) (t : StateTree),
    extendPass g seq t (pre ++ rest) =
      ((extendPass g seq (extendPass g seq t pre).1 rest).1,
       (extendPass g seq t pre).2.1 ++ (extendPass g seq (extendPass g seq t pre).1 rest).2.1,
       (extendPass g seq t pre).2.2 ++
         (extendPass g seq (extendPass g seq t pre).1 rest).2.2) := by
  intro pre
  induction pre with
  | nil =>
    intro rest t
    simp [extendPass]
  | cons p ps ih =>
    intro rest t
    simp only [List.cons_append, extendPass]
    by_cases h : matchable (t.getNode p).state
    · simp only [h, if_true]
      cases hPE : (pathExtender g seq t p).1 with
      | nil => simp [List.append_eq, ih]
      | cons x xs => simp [List.append_eq, ih]
    · simp only [h, if_false]
      simp [List.append_eq, ih]

/-- C8: the fork policy of the extension loop. Processing decomposes over the
bucket in order (conjunct 1); a Start/Match/Mismatch member whose path
extender yields one or more new match states has its bucket slot replaced by
the first yield while the remaining yields are collected as additional
members (conjunct 2); a member in an indel phase is left unchanged and
produces no extension (conjunct 3). -/
theorem c8_fork_policy :
    (∀ (g : AlnGraph) (seq : List Nat) (pre rest : List Nat) (t : StateTree),
      extendPass g seq t (pre ++ rest) =
        ((extendPass g seq (extendPass g seq t pre).1 rest).1,
         (extendPass g seq t pre).2.1 ++
           (extendPass g seq (extendPass g seq t pre).1 rest).2.1,
         (extendPass g seq t pre).2.2 ++
           (extendPass g seq (extendPass g seq t pre).1 rest).2.2)) ∧
    (∀ (g : AlnGraph) (seq : List Nat) (t t' : StateTree) (ix x : Nat) (xs : List Nat),
      matchable (t.getNode ix).state = true →
      pathExtender g seq t ix = (x :: xs, t') →
      extendPass g seq t [ix] = (t', [x], xs)) ∧
    (∀ (g : AlnGraph) (seq : List Nat) (t : StateTree) (ix : Nat),
      matchable (t.getNode ix).state = false →
      extendPass g seq t [ix] = (t, [ix], [])) := by
  refine ⟨?_, ?_, ?_⟩
  · exact fun g seq pre rest t => extendPass_append g seq pre rest t
  · intro g seq t t' ix x xs hm hPE
    simp [extendPass, hm, hPE]
  · intro g seq t ix hm
    simp [extendPass, hm]

/-- Example graph with a matching fork: the virtual start 0 has two successors
1 and 2, both labelled A and both end nodes. -/
def exFork : AlnGraph where
  startNodes := [0]
  successors := fun n => match n with | 0 => [1, 2] | _ => []
  symbol := fun n => match n with | 1 => some 65 | 2 => some 65 | _ => none
  isEnd := fun n => n == 1 || n == 2
  nodeCount := 3

/-- The tree grown by extending the start seed over the fork: both branches
created, in depth-first order. -/
def wForkOut : StateTree :=
  ⟨[⟨0, 0, .Start, none⟩, ⟨1, 1, .Match, some (.Step 0)⟩, ⟨2, 1, .Match, some (.Step 0)⟩]⟩

/-- A one-node tree holding an Insertion state. -/
def wIndel : StateTree := ⟨[⟨1, 1, .Insertion, some (.Step 0)⟩]⟩

/-- Witness for C8 at concrete inputs: on the fork graph the start member is
replaced by the first created branch and the second branch is collected as an
additional member; an Insertion member passes through unchanged. -/
theorem c8_fork_policy_witness :
    extendPass exFork [65] wStart [0] = (wForkOut, [1], [2]) ∧
    extendPass exGraph [84, 71] wIndel [0] = (wIndel, [0], []) :=
  ⟨c8_fork_policy.2.1 exFork [65] wStart wForkOut 0 1 [2] (by decide) (by decide),
   c8_fork_policy.2.2 exGraph [84, 71] wIndel 0 (by decide)⟩

/-- The backtrace walk appends, in walk order, exactly the pair emitOf gives
for each chain state, provided the chain terminates within the fuel and every
chain state carries an accepted phase. -/
theorem backtraceGo_spec (t : StateTree) :
    ∀ (fuel ix : Nat) (acc : List AlignedPair),
    chainClosed t fuel ix = true →
    (btChain t fuel ix).all (fun s => goodPhase s.state) = true →
    backtraceGo t fuel (some ix) acc =
      .ok (acc ++ (btChain t fuel ix).filterMap emitOf) := by
  intro fuel
  induction fuel with
  | zero =>
    intro ix acc hc _
    simp [chainClosed] at hc
  | succ n ih =>
    intro ix acc hc hg
    cases hbt : (t.getNode ix).backtrace with
    | none => simp [backtraceGo, btChain, hbt]
    | some bt =>
      simp only [chainClosed, hbt] at hc
      simp only [backtraceGo, btChain, hbt] at hg ⊢
      rw [List.all_cons] at hg
      obtain ⟨hgood, hrest⟩ := Bool.and_eq_true_iff.mp hg
      by_cases hps : ((t.getNode bt.prev).state == AlignState.Start) = true
      · simp only [hps, if_true] at hrest ⊢
        cases hst : (t.getNode ix).state <;> simp [hst, goodPhase] at hgood <;>
          cases bt <;> simp [backtraceGo, emitOf, hst, hbt]
      · rw [Bool.not_eq_true] at hps
        simp only [hps, Bool.false_or] at hc
        simp only [hps, Bool.false_eq_true, if_false] at hrest
        have ihr := fun acc2 => ih bt.prev acc2 hc hrest
        cases hst : (t.getNode ix).state <;> simp [hst, goodPhase] at hgood <;>
          cases bt <;>
            (simp only [Backtrace.prev] at hps ihr;
             simp [backtraceGo, hbt, hst, hps, Bool.false_eq_true, if_false, Backtrace.prev,
               ihr, emitOf, List.filterMap_cons, List.append_assoc])

/-- C3: for a terminal index whose parent chain is well formed (it terminates
and every chain state carries an accepted phase), the backtrace builder emits
exactly one (node, offset - 1) pair per Match/Mismatch reached via a step,
nothing for a Match/Mismatch reached via a closed indel, a (none, offset - 1)
pair per Insertion, a (node, none) pair per Deletion, stops without emitting
at a Start state, and returns the walk-order (reverse) list reversed into
forward order. -/
theorem c3_backtrace_builds_reversed_emissions (t : StateTree) (ix : Nat)
    (hc : chainClosed t (t.nodes.length + 1) ix = true)
    (hg : (btChain t (t.nodes.length + 1) ix).all (fun s => goodPhase s.state) = true) :
    backtraceF t ix =
      .ok (((btChain t (t.nodes.length + 1) ix).filterMap emitOf).reverse) := by
  unfold backtraceF
  rw [backtraceGo_spec t (t.nodes.length + 1) ix [] hc hg]
  simp [Except.map]

/-- The state tree produced by the example run: a Start seed, a matched T, an
opened insertion, and its closed-indel Match companion. -/
def wC3 : StateTree :=
  ⟨[⟨0, 0, .Start, none⟩, ⟨1, 1, .Match, some (.Step 0)⟩,
    ⟨1, 2, .Insertion, some (.Step 1)⟩, ⟨1, 2, .Match, some (.ClosedIndel 2)⟩]⟩

/-- Witness for C3 on the example run's tree from its terminal index. -/
theorem c3_backtrace_builds_reversed_emissions_witness :
    backtraceF wC3 3 = .ok (((btChain wC3 (wC3.nodes.length + 1) 3).filterMap emitOf).reverse) :=
  c3_backtrace_builds_reversed_emissions wC3 3 (by decide) (by decide)

/-- The predecessor loop preserves the enqueue discipline: a predecessor is
enqueued only when absent from the visited set and is added to it in the same
step. -/
theorem procPreds_enqOk (g : BubGraph) (dist : Nat) (stack : List (Nat × Nat)) :
    ∀ (ps : List Nat) (st : BState), enqOk st → enqOk (procPreds g dist stack ps st) := by
  intro ps
  induction ps with
  | nil => intro st h; exact h
  | cons pred ps ih =>
    intro st h
    by_cases hv : pred ∈ st.visited
    · rw [procPreds, if_pos hv]
      exact ih st h
    · rw [procPreds, if_neg hv]
      apply ih
      have hnm : pred ∉ st.trace := fun hm => hv (h.2 pred hm)
      refine ⟨?_, ?_⟩
      · rw [List.nodup_append_comm]
        simpa using List.nodup_cons.mpr ⟨hnm, h.1⟩
      · intro n hn
        rcases List.mem_append.mp hn with hn | hn
        · exact List.mem_cons_of_mem _ (h.2 n hn)
        · simp only [List.mem_singleton] at hn
          subst hn
          exact List.mem_cons_self _ _

/-- Processing one dequeued item preserves the enqueue discipline. -/
theorem processItem_enqOk (g : BubGraph) (entrance : Nat) (it : QItem) (st : BState)
    (h : enqOk st) : enqOk (processItem g entrance it st) := by
  unfold processItem
  dsimp only
  split
  · exact h
  · exact procPreds_enqOk g it.dist it.stack (g.predecessors it.node) _ h

/-- The BFS loop preserves the enqueue discipline. -/
theorem bfsRun_enqOk (g : BubGraph) (entrance : Nat) :
    ∀ (fuel : Nat) (st : BState), enqOk st → enqOk (bfsRun g entrance fuel st) := by
  intro fuel
  induction fuel with
  | zero => intro st h; exact h
  | succ n ih =>
    intro st h
    rw [bfsRun]
    cases hq : st.qu with
    | nil => exact h
    | cons it qrest => exact ih _ (processItem_enqOk g entrance it _ h)

/-- A backward BFS run from an unvisited exit preserves the enqueue
discipline: the exit is enqueued once and marked visited at seeding. -/
theorem bubbleBackwardBfs_enqOk (g : BubGraph) (fuel entrance bexit : Nat) (st : BState)
    (hv : bexit ∉ st.visited) (h : enqOk st) :
    enqOk (bubbleBackwardBfs g fuel entrance bexit st) := by
  unfold bubbleBackwardBfs
  apply bfsRun_enqOk
  have hnm : bexit ∉ st.trace := fun hm => hv (h.2 bexit hm)
  refine ⟨?_, ?_⟩
  · rw [List.nodup_append_comm]
    simpa using List.nodup_cons.mpr ⟨hnm, h.1⟩
  · intro n hn
    rcases List.mem_append.mp hn with hn | hn
    · exact List.mem_cons_of_mem _ (h.2 n hn)
    · simp only [List.mem_singleton] at hn
      subst hn
      exact List.mem_cons_self _ _

/-- The build loop preserves the enqueue discipline: a BFS run is started
only from a bubble exit that no earlier run has visited. -/
theorem buildGo_enqOk (g : BubGraph) (fuel : Nat) :
    ∀ (rpos : List Nat) (st : BState), enqOk st → enqOk (buildGo g fuel rpos st) := by
  intro rpos
  induction rpos with
  | nil => intro st h; exact h
  | cons rpo rest ih =>
    intro st h
    by_cases hv : g.invRevPostorder rpo ∈ st.visited
    · rw [buildGo, if_pos hv]
      exact ih st h
    · rw [buildGo, if_neg hv]
      cases hx : g.exitArr rpo with
      | none => exact ih st h
      | some entrance => exact ih _ (bubbleBackwardBfs_enqOk g fuel entrance _ st hv h)

/-- C10: the visited set is shared across all backward BFS runs of one build:
the trace of all enqueue operations over the whole build has no duplicate
node (conjunct 1), and a bubble exit already visited by an earlier run never
starts its own BFS (the build loop skips it; conjunct 2). -/
theorem c10_shared_visited_single_enqueue :
    (∀ (g : BubGraph) (fuel : Nat), (buildAll g fuel).trace.Nodup) ∧
    (∀ (g : BubGraph) (fuel rpo : Nat) (rest : List Nat) (st : BState),
      g.invRevPostorder rpo ∈ st.visited →
      buildGo g fuel (rpo :: rest) st = buildGo g fuel rest st) := by
  constructor
  · intro g fuel
    exact (buildGo_enqOk g fuel _ _ ⟨List.nodup_nil, by simp⟩).1
  · intro g fuel rpo rest st h
    rw [buildGo, if_pos h]

/-- Witness for C10 on the diamond-bubble example: the build's enqueue trace
is duplicate free, and a visited exit rank is skipped. -/
theorem c10_shared_visited_single_enqueue_witness :
    (buildAll exBub 10).trace.Nodup ∧
    buildGo exBub 3 [3] ⟨[], [3], [], []⟩ = buildGo exBub 3 [] ⟨[], [3], [], []⟩ :=
  ⟨c10_shared_visited_single_enqueue.1 exBub 10,
   c10_shared_visited_single_enqueue.2 exBub 3 3 [] ⟨[], [3], [], []⟩ (by decide)⟩
